import Mathlib

/-!
Verification of the quality-tiered image compression pipeline
(`compress.cpp`) against its natural-language specification.

The C++ source is shallowly embedded: machine floats are modelled as exact
rationals (`ℚ`), `static_cast<int>` on a nonnegative float as truncation
toward zero, and `std::round` / `std::lround` as rounding half away from
zero.  The single transcendental the code uses, `std::exp` inside the
Gaussian-kernel construction, is abstracted as an arbitrary function
parameter `rexp : ℚ → ℚ`; every property proved below holds for all such
functions, and witnesses instantiate it concretely.
-/

/-- C++ `static_cast<int>` applied to a float value: truncation toward zero. -/
def ctrunc (x : ℚ) : ℤ := if x < 0 then ⌈x⌉ else ⌊x⌋

/-- C++ `std::round` / `std::lround`: rounding to nearest, halves away from zero. -/
def cround (x : ℚ) : ℤ := if x < 0 then -round (-x) else round x

/-- C++ `std::clamp val lo hi` (for `lo ≤ hi`). -/
def cclamp {α : Type} [LinearOrder α] (v lo hi : α) : α := max lo (min hi v)

theorem cround_of_nonneg {x : ℚ} (hx : 0 ≤ x) : cround x = round x := by
  unfold cround
  rw [if_neg (not_lt.mpr hx)]

theorem round_mono_q {x y : ℚ} (h : x ≤ y) : round x ≤ round y := by
  rw [round_eq, round_eq]
  exact Int.floor_mono (by linarith)

theorem cround_mono_of_nonneg {x y : ℚ} (hx : 0 ≤ x) (h : x ≤ y) :
    cround x ≤ cround y := by
  rw [cround_of_nonneg hx, cround_of_nonneg (le_trans hx h)]
  exact round_mono_q h

/-- If a rational is within 1/2 of an integer, C-style rounding recovers that integer. -/
theorem cround_eq_of_abs_lt {x : ℚ} {n : ℤ} (h : |x - n| < 1/2) : cround x = n := by
  have h1 : (n : ℚ) - 1/2 < x := by
    have := abs_lt.mp h
    linarith [this.1]
  have h2 : x < (n : ℚ) + 1/2 := by
    have := abs_lt.mp h
    linarith [this.2]
  unfold cround
  by_cases hx : x < 0
  · rw [if_pos hx]
    have : round (-x) = -n := by
      rw [round_eq]
      apply Int.floor_eq_iff.mpr
      constructor
      · push_cast
        linarith
      · push_cast
        linarith
    rw [this]
    ring
  · rw [if_neg hx]
    rw [round_eq]
    apply Int.floor_eq_iff.mpr
    constructor
    · linarith
    · linarith

-- ---------- data model ----------

/-- An 8-bit RGB pixel (`struct RGB`); channel values are in `[0,255]`. -/
structure RGB where
  r : ℕ
  g : ℕ
  b : ℕ
deriving DecidableEq, Inhabited

/-- A YCbCr pixel (`struct YCbCr`); float channels modelled as rationals. -/
structure YCbCr where
  y : ℚ
  cb : ℚ
  cr : ℚ
deriving DecidableEq, Inhabited

/-- `YCbCr::fromRGB`: forward BT.601-style conversion. -/
def YCbCr.fromRGB (p : RGB) : YCbCr :=
  { y := 0.299 * p.r + 0.587 * p.g + 0.114 * p.b
    cb := 128 - 0.168736 * p.r - 0.331264 * p.g + 0.5 * p.b
    cr := 128 + 0.5 * p.r - 0.418688 * p.g - 0.081312 * p.b }

/-- `YCbCr::toRGB`: inverse conversion with nearest rounding, clamped to `[0,255]`. -/
def YCbCr.toRGB (c : YCbCr) : RGB :=
  let r := c.y + 1.402 * (c.cr - 128)
  let g := c.y - 0.344136 * (c.cb - 128) - 0.714136 * (c.cr - 128)
  let b := c.y + 1.772 * (c.cb - 128)
  { r := (cclamp (cround r) 0 255).toNat
    g := (cclamp (cround g) 0 255).toNat
    b := (cclamp (cround b) 0 255).toNat }

/-- `YCbCr::toRGBRounded`: inverse conversion where each channel is rounded to the
nearest multiple of `mult` (`lround(val / mult) * mult`) and then clamped to `[0,255]`. -/
def YCbCr.toRGBRounded (c : YCbCr) (mult : ℤ) : RGB :=
  let rtm : ℚ → ℕ := fun v => (cclamp (cround (v / (mult : ℚ)) * mult) 0 255).toNat
  let r := c.y + 1.402 * (c.cr - 128)
  let g := c.y - 0.344136 * (c.cb - 128) - 0.714136 * (c.cr - 128)
  let b := c.y + 1.772 * (c.cb - 128)
  { r := rtm r, g := rtm g, b := rtm b }

-- ---------- quantization and dithering ----------

/-- `quantize(value, levels)`: levels clamped to at least 2,
`step = 255/(levels-1)`, result `round(value/step)*step`. -/
def quantize (value : ℚ) (levels : ℤ) : ℚ :=
  let L := max levels 2
  let step : ℚ := 255 / ((L : ℚ) - 1)
  (cround (value / step) : ℚ) * step

/-- The fixed 4×4 Bayer threshold matrix (row-major, values `k/16`). -/
def bayer (row col : ℕ) : ℚ :=
  match row, col with
  | 0, 0 => 0/16  | 0, 1 => 8/16  | 0, 2 => 2/16  | 0, 3 => 10/16
  | 1, 0 => 12/16 | 1, 1 => 4/16  | 1, 2 => 14/16 | 1, 3 => 6/16
  | 2, 0 => 3/16  | 2, 1 => 11/16 | 2, 2 => 1/16  | 2, 3 => 9/16
  | 3, 0 => 15/16 | 3, 1 => 7/16  | 3, 2 => 13/16 | 3, 3 => 5/16
  | _, _ => 0

/-- `orderedDither(value, x, y, levels)`: adds the Bayer threshold
(offset by −0.5, scaled by the quantization step) and clamps to `[0,255]`. -/
def orderedDither (value : ℚ) (x y : ℕ) (levels : ℤ) : ℚ :=
  let step : ℚ := 255 / (((max levels 2 : ℤ) : ℚ) - 1)
  let threshold := (bayer (y % 4) (x % 4) - 0.5) * step
  cclamp (value + threshold) 0 255

-- ---------- chroma filtering ----------

/-- Raster constructor: the double loop `for y in [0,h) for x in [0,w)` writing
index `y*w+x` produces exactly the indices `0..w*h-1`. -/
def mapIdx (w h : ℕ) (f : ℕ → YCbCr) : List YCbCr := (List.range (w * h)).map f

/-- The normalized Gaussian kernel of `chromaBlur`: raw weights
`rexp (-(i*i)/(2σ²))` for `i ∈ [-radius, radius]`, divided by their sum.
`rexp` abstracts the C library's `exp`. -/
def gaussKernel (rexp : ℚ → ℚ) (sigma : ℚ) (radius : ℕ) : List ℚ :=
  let raw := (List.range (2 * radius + 1)).map fun (j : ℕ) =>
    rexp (-(((j : ℚ) - radius) ^ 2) / (2 * sigma ^ 2))
  let s := raw.sum
  raw.map (· / s)

/-- `chromaBlur(px, w, h, sigma)`: separable Gaussian blur of the Cb/Cr planes
with edge clamping; `y` is never written.  Returns the input unchanged when
`sigma < 0.1`.  Each of the two 1-D passes reads from a snapshot of the
previous stage (`tmp = px` in the source). -/
def chromaBlur (rexp : ℚ → ℚ) (px : List YCbCr) (w h : ℕ) (sigma : ℚ) : List YCbCr :=
  if sigma < 0.1 then px else
  let radius : ℕ := (⌈sigma * 2⌉).toNat
  let kern := gaussKernel rexp sigma radius
  let horiz := mapIdx w h fun idx =>
    let x := idx % w
    let y := idx / w
    let cb := ((List.range (2 * radius + 1)).map fun (j : ℕ) =>
      let sx := (cclamp ((x : ℤ) + ((j : ℤ) - radius)) 0 ((w : ℤ) - 1)).toNat
      (px.getD (y * w + sx) default).cb * kern.getD j 0).sum
    let cr := ((List.range (2 * radius + 1)).map fun (j : ℕ) =>
      let sx := (cclamp ((x : ℤ) + ((j : ℤ) - radius)) 0 ((w : ℤ) - 1)).toNat
      (px.getD (y * w + sx) default).cr * kern.getD j 0).sum
    { y := (px.getD idx default).y, cb := cb, cr := cr }
  mapIdx w h fun idx =>
    let x := idx % w
    let y := idx / w
    let cb := ((List.range (2 * radius + 1)).map fun (j : ℕ) =>
      let sy := (cclamp ((y : ℤ) + ((j : ℤ) - radius)) 0 ((h : ℤ) - 1)).toNat
      (horiz.getD (sy * w + x) default).cb * kern.getD j 0).sum
    let cr := ((List.range (2 * radius + 1)).map fun (j : ℕ) =>
      let sy := (cclamp ((y : ℤ) + ((j : ℤ) - radius)) 0 ((h : ℤ) - 1)).toNat
      (horiz.getD (sy * w + x) default).cr * kern.getD j 0).sum
    { y := (horiz.getD idx default).y, cb := cb, cr := cr }

/-- `chromaSubsample(px, w, h, factor)`: partitions the raster into
`factor×factor` blocks (smaller at the edges), averages Cb/Cr over each block
and broadcasts the average back; `y` is never written.  Returns the input
unchanged when `factor ≤ 1`. -/
def chromaSubsample (px : List YCbCr) (w h : ℕ) (factor : ℤ) : List YCbCr :=
  if factor ≤ 1 then px else
  let f := factor.toNat
  mapIdx w h fun idx =>
    let x := idx % w
    let y := idx / w
    let bx := x / f * f
    let by' := y / f * f
    let bw := min f (w - bx)
    let bh := min f (h - by')
    let cnt := bw * bh
    let sumCb := ((List.range bh).map fun dy =>
      ((List.range bw).map fun dx =>
        (px.getD ((by' + dy) * w + (bx + dx)) default).cb).sum).sum
    let sumCr := ((List.range bh).map fun dy =>
      ((List.range bw).map fun dx =>
        (px.getD ((by' + dy) * w + (bx + dx)) default).cr).sum).sum
    { y := (px.getD idx default).y, cb := sumCb / cnt, cr := sumCr / cnt }

-- ---------- quality tier planning ----------

/-- The tier parameter record computed by `compressImage` on the PNG path. -/
structure TierParams where
  lumaLevels : ℤ
  chromaLevels : ℤ
  subsampleFactor : ℤ
  blurSigma : ℚ
  useDithering : Bool
deriving DecidableEq

/-- The tier parameters as `compressImage` computes them:
Tier 1 when `quality ≥ 0.7 - 1e-6`, Tier 2 otherwise; the products
`t*64`, `t*192`, `t*188`, `t*62`, `t*6` are truncated by `static_cast<int>`. -/
def tierParams (quality : ℚ) : TierParams :=
  let inv := 1 - quality
  if quality ≥ 0.7 - 1/1000000 then
    let t := inv / 0.3
    { lumaLevels := 256 - ctrunc (t * 64)
      chromaLevels := 256 - ctrunc (t * 192)
      subsampleFactor := 2
      blurSigma := t * 0.7
      useDithering := true }
  else
    let t := cclamp ((inv - 0.3) / 0.7) 0 1
    { lumaLevels := max 4 (192 - ctrunc (t * 188))
      chromaLevels := max 2 (64 - ctrunc (t * 62))
      subsampleFactor := 2 + ctrunc (t * 6)
      blurSigma := 0.7 + t * 0.6
      useDithering := decide (t < 0.5) }

/-- Modelled from the claim's words (C1): the same tier formulas with
`round` meaning rounding to the nearest integer and the tier boundary at
`quality ≥ 0.7` exactly.  Used only to compare against `tierParams`. -/
def specTierParamsRound (quality : ℚ) : TierParams :=
  if quality ≥ 0.7 then
    let t := (1 - quality) / 0.3
    { lumaLevels := 256 - cround (t * 64)
      chromaLevels := 256 - cround (t * 192)
      subsampleFactor := 2
      blurSigma := t * 0.7
      useDithering := true }
  else
    let t := cclamp ((1 - quality - 0.3) / 0.7) 0 1
    { lumaLevels := max 4 (192 - cround (t * 188))
      chromaLevels := max 2 (64 - cround (t * 62))
      subsampleFactor := 2 + cround (t * 6)
      blurSigma := 0.7 + t * 0.6
      useDithering := decide (t < 0.5) }

/-- The amended tier formulas: truncation toward zero in place of rounding,
and the code's epsilon-tolerant tier boundary `quality ≥ 0.7 - 1e-6`. -/
def specTierParamsTrunc (quality : ℚ) : TierParams :=
  if quality ≥ 0.7 - 1/1000000 then
    let t := (1 - quality) / 0.3
    { lumaLevels := 256 - ctrunc (t * 64)
      chromaLevels := 256 - ctrunc (t * 192)
      subsampleFactor := 2
      blurSigma := t * 0.7
      useDithering := true }
  else
    let t := cclamp ((1 - quality - 0.3) / 0.7) 0 1
    { lumaLevels := max 4 (192 - ctrunc (t * 188))
      chromaLevels := max 2 (64 - ctrunc (t * 62))
      subsampleFactor := 2 + ctrunc (t * 6)
      blurSigma := 0.7 + t * 0.6
      useDithering := decide (t < 0.5) }

-- ---------- PNG pipeline stages ----------

/-- Step 4 of the PNG path: quantization, with ordered dithering of luma
when `dith` is set. -/
def quantStage (px : List YCbCr) (w h : ℕ) (luma chroma : ℤ) (dith : Bool) : List YCbCr :=
  if dith then
    mapIdx w h fun idx =>
      let x := idx % w
      let y := idx / w
      let p := px.getD idx default
      { y := quantize (orderedDither p.y x y luma) luma
        cb := quantize p.cb chroma
        cr := quantize p.cr chroma }
  else
    px.map fun p =>
      { y := quantize p.y luma, cb := quantize p.cb chroma, cr := quantize p.cr chroma }

/-- Step 5 of the PNG path (dithering only): round luma to the nearest even
integer (`round(y/2)*2`) and clamp to `[0,255]`. -/
def evenRoundY (p : YCbCr) : YCbCr :=
  { p with y := cclamp ((cround (p.y / 2) : ℚ) * 2) 0 255 }

/-- The RGB rounding granularity of step 6: 2 when `quality > 0.4`, else 4. -/
def rgbMultiple (quality : ℚ) : ℤ := if quality > 0.4 then 2 else 4

/-- The full custom PNG pixel pipeline of `compressImage` (steps 1–6):
forward conversion, optional blur, subsampling, quantization (with optional
dithering and even-rounding), and reconstruction with perceptual rounding. -/
def pngPipeline (rexp : ℚ → ℚ) (img : List RGB) (w h : ℕ) (quality : ℚ) : List RGB :=
  let tp := tierParams quality
  let y0 := img.map YCbCr.fromRGB
  let y1 := if tp.blurSigma > 0 then chromaBlur rexp y0 w h tp.blurSigma else y0
  let y2 := chromaSubsample y1 w h tp.subsampleFactor
  let y3 := quantStage y2 w h tp.lumaLevels tp.chromaLevels tp.useDithering
  let y4 := if tp.useDithering then y3.map evenRoundY else y3
  y4.map fun c => c.toRGBRounded (rgbMultiple quality)

-- ---------- pass traces ----------

/-- One raster-level pass performed by `compressImage`. -/
inductive Pass where
  | blur (sigma : ℚ)
  | subsample (factor : ℤ)
  | quantizePass (dithered : Bool)
  | evenRoundPass
  | reconstruct (mult : ℤ)
deriving DecidableEq

/-- The sequence of raster passes the PNG branch performs, in order, as a
function of quality (the guards of steps 3–6 of `compressImage`). -/
def pngPasses (quality : ℚ) : List Pass :=
  let p := tierParams quality
  (if p.blurSigma > 0 then [Pass.blur p.blurSigma] else []) ++
  [Pass.subsample p.subsampleFactor, Pass.quantizePass p.useDithering] ++
  (if p.useDithering then [Pass.evenRoundPass] else []) ++
  [Pass.reconstruct (rgbMultiple quality)]

/-- The sequence of raster passes the JPEG branch performs before encoding:
a single fixed chroma blur with sigma 0.4 when `quality ≤ 0.6`, else none. -/
def jpegPasses (quality : ℚ) : List Pass :=
  if quality ≤ 0.6 then [Pass.blur 0.4] else []

/-- The quality handed to the JPEG encoder:
`clamp(50 + static_cast<int>(quality * 45), 1, 100)`. -/
def jpegQuality (quality : ℚ) : ℤ :=
  cclamp (50 + ctrunc (quality * 45)) 1 100

/-- Modelled from the claim's words (C7): `clamp(50 + round(quality·45), 1, 100)`
with `round` meaning rounding to the nearest integer.  Used only to compare
against `jpegQuality`. -/
def specJpegQualityRound (quality : ℚ) : ℤ :=
  cclamp (50 + cround (quality * 45)) 1 100

-- ---------- palette reduction ----------

/-- `packRGB`: `(r << 16) | (g << 8) | b` for 8-bit channels. -/
def packRGB (p : RGB) : ℕ := p.r * 65536 + p.g * 256 + p.b

/-- The distinct-color scan of step 7: insert each pixel's packed color into
the set, breaking out of the loop as soon as the size exceeds 256. -/
def scanColors : List RGB → Finset ℕ → Finset ℕ
  | [], s => s
  | p :: rest, s =>
    let s' := insert (packRGB p) s
    if 256 < s'.card then s' else scanColors rest s'

/-- The color set the scan produces for a pixel buffer. -/
def uniqScan (px : List RGB) : Finset ℕ := scanColors px ∅

/-- The condition under which the indexed (PNG-8) branch is taken:
`!uniq.empty() && uniq.size() <= 256`. -/
def selectIndexed (px : List RGB) : Prop :=
  (uniqScan px).Nonempty ∧ (uniqScan px).card ≤ 256

instance (px : List RGB) : Decidable (selectIndexed px) := by
  unfold selectIndexed
  infer_instance

/-- The palette colors in iteration order of `std::set<uint32_t>`:
increasing packed value. -/
def paletteColors (px : List RGB) : List ℕ := (uniqScan px).sort (· ≤ ·)

/-- One palette entry: unpacked channels plus alpha fixed at 255. -/
def unpackRGBA (c : ℕ) : ℕ × ℕ × ℕ × ℕ := (c / 65536 % 256, c / 256 % 256, c % 256, 255)

/-- The RGBA palette built in the indexed branch. -/
def paletteRGBA (px : List RGB) : List (ℕ × ℕ × ℕ × ℕ) :=
  (paletteColors px).map unpackRGBA

/-- The index buffer: every pixel maps to its palette slot. -/
def pixelIndices (px : List RGB) : List ℕ :=
  px.map fun p => (paletteColors px).indexOf (packRGB p)

-- ---------- output extension handling ----------

/-- `std::tolower` on the ASCII letters the extension check cares about. -/
def lowerChar (c : Char) : Char :=
  if 'A' ≤ c ∧ c ≤ 'Z' then Char.ofNat (c.toNat + 32) else c

/-- The extension of a path: the characters after the last `'.'`
(`find_last_of`), or `none` when the path contains no dot. -/
def extOf (s : List Char) : Option (List Char) :=
  if '.' ∈ s then some ((s.reverse.takeWhile (· ≠ '.')).reverse) else none

/-- Whether the (lowercased) extension selects the JPEG branch. -/
def isJPEGExt (e : List Char) : Bool := e == "jpg".data || e == "jpeg".data

/-- Whether the (lowercased) extension selects the PNG branch. -/
def isPNGExt (e : List Char) : Bool := e == "png".data

/-- Whether `compressImage` reaches the `stbi_load` call, i.e. decodes the
input: only the quality guard and the missing-extension guard return earlier. -/
def attemptsDecode (quality : ℚ) (out : List Char) : Bool :=
  decide (0 ≤ quality ∧ quality ≤ 1) && (extOf out).isSome

/-- The boolean result of `compressImage`, given whether the decoder and the
selected encoder succeed.  Mirrors the guard structure of the source: quality
check, missing-extension check, decode, then the branch on the extension
(an unsupported extension falls through to the failing `else`). -/
def compressResult (quality : ℚ) (out : List Char) (decodeOk encodeOk : Bool) : Bool :=
  if ¬(0 ≤ quality ∧ quality ≤ 1) then false
  else match extOf out with
    | none => false
    | some e =>
      if ¬decodeOk then false
      else
        let el := e.map lowerChar
        if isJPEGExt el || isPNGExt el then encodeOk else false

-- ---------- helper lemmas ----------

theorem mapIdx_length (w h : ℕ) (f : ℕ → YCbCr) : (mapIdx w h f).length = w * h := by
  simp [mapIdx]

theorem mapIdx_getD (w h : ℕ) (f : ℕ → YCbCr) (i : ℕ) (d : YCbCr) (hi : i < w * h) :
    (mapIdx w h f).getD i d = f i := by
  unfold mapIdx
  rw [List.getD_eq_getElem _ _ (by simpa using hi)]
  simp

-- ---------- C1 ----------

/-- C1 counterexample: at quality 0.88 the code's tier parameters differ from
the claim's formulas with `round` meaning round-to-nearest (the code truncates
`t*64 = 25.6` to 25, giving `lumaLevels = 231`, while rounding gives 230). -/
theorem c1_counterexample : tierParams (22/25) ≠ specTierParamsRound (22/25) := by
  with_unfolding_all decide

/-- C1 (amended): for every quality in `[0,1]` the PNG tier parameters follow
the spec formulas with truncation toward zero in place of round-to-nearest,
and with the code's epsilon-tolerant tier boundary `quality ≥ 0.7 - 1e-6`. -/
theorem c1_tier_params_trunc (q : ℚ) (h0 : 0 ≤ q) (h1 : q ≤ 1) :
    tierParams q = specTierParamsTrunc q := rfl

/-- Witness for C1 at quality 1/2. -/
theorem c1_tier_params_trunc_witness : tierParams (1/2) = specTierParamsTrunc (1/2) :=
  c1_tier_params_trunc (1/2) (by norm_num) (by norm_num)

-- ---------- C7 ----------

/-- C7 counterexample: at quality 0.62 the code hands the JPEG encoder
quality 77 (`50 + trunc(27.9)`), not the claimed `50 + round(27.9) = 78`. -/
theorem c7_counterexample : jpegQuality (31/50) ≠ specJpegQualityRound (31/50) := by
  with_unfolding_all decide

/-- C7 (amended): for every quality in `[0,1]` the JPEG encoder quality is
`clamp(50 + trunc(quality·45), 1, 100)` with truncation toward zero; the
clamp is inactive and the result lies in `[50, 95]`. -/
theorem c7_jpeg_quality_trunc (q : ℚ) (h0 : 0 ≤ q) (h1 : q ≤ 1) :
    jpegQuality q = 50 + ctrunc (q * 45) ∧
    50 ≤ jpegQuality q ∧ jpegQuality q ≤ 95 := by
  have hnn : (0 : ℚ) ≤ q * 45 := by positivity
  have htr : ctrunc (q * 45) = ⌊q * 45⌋ := by
    unfold ctrunc
    rw [if_neg (not_lt.mpr hnn)]
  have hlo : 0 ≤ ⌊q * 45⌋ := Int.floor_nonneg.mpr hnn
  have hhi : ⌊q * 45⌋ ≤ 45 := by
    have : (⌊q * 45⌋ : ℚ) ≤ q * 45 := Int.floor_le _
    have h45 : q * 45 ≤ 45 := by linarith
    exact_mod_cast Int.floor_mono h45 |>.trans (by norm_num)
  unfold jpegQuality cclamp
  rw [htr]
  omega

/-- Witness for C7 at quality 1/2. -/
theorem c7_jpeg_quality_trunc_witness :
    jpegQuality (1/2) = 50 + ctrunc (1/2 * 45) ∧
    50 ≤ jpegQuality (1/2) ∧ jpegQuality (1/2) ≤ 95 :=
  c7_jpeg_quality_trunc (1/2) (by norm_num) (by norm_num)

-- ---------- C8 ----------

/-- C8: `chromaSubsample` with factor ≤ 1 and `chromaBlur` with sigma < 0.1
both return the raster bit-identical to the input. -/
theorem c8_noop_guards (rexp : ℚ → ℚ) (px : List YCbCr) (w h : ℕ)
    (factor : ℤ) (sigma : ℚ) :
    (factor ≤ 1 → chromaSubsample px w h factor = px) ∧
    (sigma < 0.1 → chromaBlur rexp px w h sigma = px) := by
  constructor
  · intro hf
    unfold chromaSubsample
    rw [if_pos hf]
  · intro hs
    unfold chromaBlur
    rw [if_pos hs]

/-- Witness for C8: a concrete raster with factor 1 and sigma 0. -/
theorem c8_noop_guards_witness :
    chromaSubsample [⟨1,2,3⟩] 1 1 1 = [⟨1,2,3⟩] ∧
    chromaBlur (fun _ => 1) [⟨1,2,3⟩] 1 1 0 = [⟨1,2,3⟩] :=
  ⟨(c8_noop_guards (fun _ => 1) [⟨1,2,3⟩] 1 1 1 0).1 (by norm_num),
   (c8_noop_guards (fun _ => 1) [⟨1,2,3⟩] 1 1 1 0).2 (by norm_num)⟩

-- ---------- C2 ----------

/-- C2 counterexample: quality 1/2 is ≤ 0.6, yet the PNG path performs no
chroma-blur pass with sigma 0.4 (its only blur is the tier's own sigma). -/
theorem c2_counterexample :
    (1/2 : ℚ) ≤ 0.6 ∧ Pass.blur 0.4 ∉ pngPasses (1/2) := by
  with_unfolding_all decide

/-- C2 (amended): the fixed sigma-0.4 pre-filter chroma blur is applied only
on the JPEG path: for every quality ≤ 0.6 the JPEG branch performs exactly
that one pass, and the PNG branch performs no sigma-0.4 blur pass at all. -/
theorem c2_prefilter_jpeg_only (q : ℚ) (h0 : 0 ≤ q) (h1 : q ≤ 0.6) :
    jpegPasses q = [Pass.blur 0.4] ∧ Pass.blur 0.4 ∉ pngPasses q := by
  constructor
  · unfold jpegPasses
    rw [if_pos h1]
  · have hn : ¬(q ≥ 0.7 - 1/1000000) := by
      rw [not_le]
      calc q ≤ 0.6 := h1
        _ < 0.7 - 1/1000000 := by norm_num
    unfold pngPasses tierParams
    rw [if_neg hn]
    have ht : (0:ℚ) ≤ cclamp ((1 - q - 0.3) / 0.7) 0 1 := le_max_left _ _
    have hσ : (0:ℚ) < 0.7 + cclamp ((1 - q - 0.3) / 0.7) 0 1 * 0.6 := by
      nlinarith
    dsimp only
    rw [if_pos hσ]
    intro hmem
    rcases List.mem_append.mp hmem with h2 | h2
    · rcases List.mem_append.mp h2 with h3 | h3
      · rcases List.mem_append.mp h3 with h4 | h4
        · rw [List.mem_singleton] at h4
          have : (0.4 : ℚ) = 0.7 + cclamp ((1 - q - 0.3) / 0.7) 0 1 * 0.6 :=
            congrArg (fun p => match p with | Pass.blur s => s | _ => 0) h4
          nlinarith
        · simp at h4
      · split at h3
        · simp at h3
        · simp at h3
    · simp at h2

/-- Witness for C2 at quality 1/2. -/
theorem c2_prefilter_jpeg_only_witness :
    jpegPasses (1/2) = [Pass.blur 0.4] ∧ Pass.blur 0.4 ∉ pngPasses (1/2) :=
  c2_prefilter_jpeg_only (1/2) (by norm_num) (by norm_num)

-- ---------- C3 ----------

/-- C3: for `v ∈ [0,255]`, `quantize(v, levels)` (levels clamped to ≥ 2,
`step = 255/(levels-1)`, `round(v/step)*step`) returns `k*step` for a
non-negative integer `k ≤ levels-1`, hence lies on the grid `{0, …, 255}`,
and it is monotone non-decreasing in `v`. -/
theorem c3_quantize_grid_mono (v : ℚ) (levels : ℤ) (h0 : 0 ≤ v) (h255 : v ≤ 255) :
    (∃ k : ℕ, (k : ℤ) ≤ max levels 2 - 1 ∧
      quantize v levels = (k : ℚ) * (255 / (((max levels 2 : ℤ) : ℚ) - 1))) ∧
    (0 ≤ quantize v levels ∧ quantize v levels ≤ 255) ∧
    (∀ v' : ℚ, v ≤ v' → quantize v levels ≤ quantize v' levels) := by
  have hL2 : (2:ℤ) ≤ max levels 2 := le_max_right _ _
  have hLq : (2:ℚ) ≤ ((max levels 2 : ℤ) : ℚ) := by exact_mod_cast hL2
  have hden : (0:ℚ) < ((max levels 2 : ℤ) : ℚ) - 1 := by linarith
  have hstep : (0:ℚ) < 255 / (((max levels 2 : ℤ) : ℚ) - 1) := div_pos (by norm_num) hden
  have hdivnn : 0 ≤ v / (255 / (((max levels 2 : ℤ) : ℚ) - 1)) := div_nonneg h0 hstep.le
  have hknn : 0 ≤ cround (v / (255 / (((max levels 2 : ℤ) : ℚ) - 1))) := by
    rw [cround_of_nonneg hdivnn]
    have h := round_mono_q hdivnn
    simpa using h
  have h255step : (255:ℚ) / (255 / (((max levels 2 : ℤ) : ℚ) - 1)) =
      ((max levels 2 : ℤ) : ℚ) - 1 := by
    field_simp
  have hkub : cround (v / (255 / (((max levels 2 : ℤ) : ℚ) - 1))) ≤ max levels 2 - 1 := by
    rw [cround_of_nonneg hdivnn]
    have hle : v / (255 / (((max levels 2 : ℤ) : ℚ) - 1)) ≤
        ((max levels 2 : ℤ) : ℚ) - 1 := by
      have hh := (div_le_div_iff_of_pos_right hstep).mpr h255
      rw [h255step] at hh
      exact hh
    have h2 : round (v / (255 / (((max levels 2 : ℤ) : ℚ) - 1))) ≤
        round (((max levels 2 : ℤ) : ℚ) - 1) := round_mono_q hle
    have h3 : round (((max levels 2 : ℤ) : ℚ) - 1) = max levels 2 - 1 := by
      rw [show ((max levels 2 : ℤ) : ℚ) - 1 = ((max levels 2 - 1 : ℤ) : ℚ) by push_cast; ring]
      exact round_intCast _
    omega
  have hquant : quantize v levels =
      (cround (v / (255 / (((max levels 2 : ℤ) : ℚ) - 1))) : ℚ) *
        (255 / (((max levels 2 : ℤ) : ℚ) - 1)) := rfl
  refine ⟨⟨(cround (v / (255 / (((max levels 2 : ℤ) : ℚ) - 1)))).toNat, ?_, ?_⟩, ⟨?_, ?_⟩, ?_⟩
  · rw [Int.toNat_of_nonneg hknn]
    exact hkub
  · rw [hquant]
    congr 1
    rw [← Int.cast_natCast]
    congr 1
    exact (Int.toNat_of_nonneg hknn).symm
  · rw [hquant]
    have : (0:ℚ) ≤ (cround (v / (255 / (((max levels 2 : ℤ) : ℚ) - 1))) : ℚ) := by
      exact_mod_cast hknn
    positivity
  · rw [hquant]
    have hc : (cround (v / (255 / (((max levels 2 : ℤ) : ℚ) - 1))) : ℚ) ≤
        ((max levels 2 : ℤ) : ℚ) - 1 := by
      exact_mod_cast hkub
    calc (cround (v / (255 / (((max levels 2 : ℤ) : ℚ) - 1))) : ℚ) *
          (255 / (((max levels 2 : ℤ) : ℚ) - 1))
        ≤ (((max levels 2 : ℤ) : ℚ) - 1) * (255 / (((max levels 2 : ℤ) : ℚ) - 1)) :=
          mul_le_mul_of_nonneg_right hc hstep.le
      _ = 255 := by
          rw [mul_comm]
          exact div_mul_cancel₀ 255 hden.ne'
  · intro v' hvv
    have hmon : cround (v / (255 / (((max levels 2 : ℤ) : ℚ) - 1))) ≤
        cround (v' / (255 / (((max levels 2 : ℤ) : ℚ) - 1))) :=
      cround_mono_of_nonneg hdivnn ((div_le_div_iff_of_pos_right hstep).mpr hvv)
    have hmonq : (cround (v / (255 / (((max levels 2 : ℤ) : ℚ) - 1))) : ℚ) ≤
        (cround (v' / (255 / (((max levels 2 : ℤ) : ℚ) - 1))) : ℚ) := by exact_mod_cast hmon
    exact mul_le_mul_of_nonneg_right hmonq hstep.le

/-- Witness for C3 at `v = 100`, `levels = 5`. -/
theorem c3_quantize_grid_mono_witness :
    (∃ k : ℕ, (k : ℤ) ≤ max 5 2 - 1 ∧
      quantize 100 5 = (k : ℚ) * (255 / (((max 5 2 : ℤ) : ℚ) - 1))) ∧
    (0 ≤ quantize 100 5 ∧ quantize 100 5 ≤ 255) ∧
    (∀ v' : ℚ, 100 ≤ v' → quantize 100 5 ≤ quantize v' 5) :=
  c3_quantize_grid_mono 100 5 (by norm_num) (by norm_num)

-- ---------- C4 ----------

/-- C4: converting an RGB triple (channels in `[0,255]`) forward to YCbCr and
back with the nearest-rounding inverse yields channels that differ from the
original by at most 1 each (in exact arithmetic the round trip is exact). -/
theorem c4_roundtrip_within_one (r g b : ℕ) (hr : r ≤ 255) (hg : g ≤ 255) (hb : b ≤ 255) :
    ((((YCbCr.fromRGB ⟨r, g, b⟩).toRGB).r : ℤ) - r).natAbs ≤ 1 ∧
    ((((YCbCr.fromRGB ⟨r, g, b⟩).toRGB).g : ℤ) - g).natAbs ≤ 1 ∧
    ((((YCbCr.fromRGB ⟨r, g, b⟩).toRGB).b : ℤ) - b).natAbs ≤ 1 := by
  have hrq : ((r:ℚ)) ≤ 255 := by exact_mod_cast hr
  have hgq : ((g:ℚ)) ≤ 255 := by exact_mod_cast hg
  have hbq : ((b:ℚ)) ≤ 255 := by exact_mod_cast hb
  have hrq0 : (0:ℚ) ≤ (r:ℚ) := by positivity
  have hgq0 : (0:ℚ) ≤ (g:ℚ) := by positivity
  have hbq0 : (0:ℚ) ≤ (b:ℚ) := by positivity
  have key : (YCbCr.fromRGB ⟨r, g, b⟩).toRGB = ⟨r, g, b⟩ := by
    unfold YCbCr.toRGB YCbCr.fromRGB
    dsimp only
    have hcr : cround ((0.299 * (r:ℚ) + 0.587 * g + 0.114 * b) +
        1.402 * ((128 + 0.5 * r - 0.418688 * g - 0.081312 * b) - 128)) = (r : ℤ) := by
      apply cround_eq_of_abs_lt
      rw [abs_lt]
      constructor <;> push_cast <;> nlinarith
    have hcg : cround ((0.299 * (r:ℚ) + 0.587 * g + 0.114 * b) -
        0.344136 * ((128 - 0.168736 * r - 0.331264 * g + 0.5 * b) - 128) -
        0.714136 * ((128 + 0.5 * r - 0.418688 * g - 0.081312 * b) - 128)) = (g : ℤ) := by
      apply cround_eq_of_abs_lt
      rw [abs_lt]
      constructor <;> push_cast <;> nlinarith
    have hcb : cround ((0.299 * (r:ℚ) + 0.587 * g + 0.114 * b) +
        1.772 * ((128 - 0.168736 * r - 0.331264 * g + 0.5 * b) - 128)) = (b : ℤ) := by
      apply cround_eq_of_abs_lt
      rw [abs_lt]
      constructor <;> push_cast <;> nlinarith
    rw [hcr, hcg, hcb]
    unfold cclamp
    simp only [RGB.mk.injEq]
    refine ⟨?_, ?_, ?_⟩ <;> omega
  rw [key]
  simp

/-- Witness for C4 at the triple (10, 20, 30). -/
theorem c4_roundtrip_within_one_witness :
    ((((YCbCr.fromRGB ⟨10, 20, 30⟩).toRGB).r : ℤ) - 10).natAbs ≤ 1 ∧
    ((((YCbCr.fromRGB ⟨10, 20, 30⟩).toRGB).g : ℤ) - 20).natAbs ≤ 1 ∧
    ((((YCbCr.fromRGB ⟨10, 20, 30⟩).toRGB).b : ℤ) - 30).natAbs ≤ 1 :=
  c4_roundtrip_within_one 10 20 30 (by norm_num) (by norm_num) (by norm_num)

-- ---------- C9 ----------

/-- C9: for every raster of `w*h` pixels and all parameter values,
`chromaBlur` and `chromaSubsample` preserve the pixel count `w*h` and leave
the `y` component of every pixel unchanged (only Cb and Cr are modified). -/
theorem c9_frame_preservation (rexp : ℚ → ℚ) (px : List YCbCr) (w h : ℕ)
    (sigma : ℚ) (factor : ℤ) (hlen : px.length = w * h) :
    ((chromaBlur rexp px w h sigma).length = w * h ∧
      ∀ i, i < w * h →
        ((chromaBlur rexp px w h sigma).getD i default).y = (px.getD i default).y) ∧
    ((chromaSubsample px w h factor).length = w * h ∧
      ∀ i, i < w * h →
        ((chromaSubsample px w h factor).getD i default).y = (px.getD i default).y) := by
  constructor
  · unfold chromaBlur
    by_cases hs : sigma < 0.1
    · rw [if_pos hs]
      exact ⟨hlen, fun i _ => rfl⟩
    · rw [if_neg hs]
      dsimp only
      refine ⟨mapIdx_length _ _ _, fun i hi => ?_⟩
      rw [mapIdx_getD _ _ _ _ _ hi]
      dsimp only
      rw [mapIdx_getD _ _ _ _ _ hi]
  · unfold chromaSubsample
    by_cases hf : factor ≤ 1
    · rw [if_pos hf]
      exact ⟨hlen, fun i _ => rfl⟩
    · rw [if_neg hf]
      dsimp only
      refine ⟨mapIdx_length _ _ _, fun i hi => ?_⟩
      rw [mapIdx_getD _ _ _ _ _ hi]

/-- Witness for C9 on a 1×1 raster with sigma 1 and factor 2. -/
theorem c9_frame_preservation_witness :
    ((chromaBlur (fun _ => 1) [⟨1,2,3⟩] 1 1 1).length = 1 * 1 ∧
      ∀ i, i < 1 * 1 →
        ((chromaBlur (fun _ => 1) [⟨1,2,3⟩] 1 1 1).getD i default).y =
          (([⟨1,2,3⟩] : List YCbCr).getD i default).y) ∧
    ((chromaSubsample [⟨1,2,3⟩] 1 1 2).length = 1 * 1 ∧
      ∀ i, i < 1 * 1 →
        ((chromaSubsample [⟨1,2,3⟩] 1 1 2).getD i default).y =
          (([⟨1,2,3⟩] : List YCbCr).getD i default).y) :=
  c9_frame_preservation (fun _ => 1) [⟨1,2,3⟩] 1 1 1 2 rfl

-- ---------- C10 ----------

/-- A channel produced by `toRGBRounded`'s `roundToMultiple` is either a
multiple of `mult` or exactly 255 (from clamping a multiple above 255). -/
theorem rtm_mult_or_255 (v : ℚ) (m : ℤ) (hm : 0 < m) :
    m.toNat ∣ (cclamp (cround (v / (m : ℚ)) * m) 0 255).toNat ∨
    (cclamp (cround (v / (m : ℚ)) * m) 0 255).toNat = 255 := by
  set z := cround (v / (m : ℚ)) * m with hz
  unfold cclamp
  rcases le_or_lt z 0 with hle | hpos
  · left
    have h1 : max 0 (min 255 z) = 0 := by
      have := min_le_right (255 : ℤ) z
      omega
    rw [h1]
    simp
  · rcases le_or_lt 255 z with h255 | h255
    · right
      have h1 : max 0 (min 255 z) = 255 := by
        have := min_eq_left h255
        omega
      rw [h1]
      rfl
    · left
      have h1 : max 0 (min 255 z) = z := by omega
      rw [h1]
      set k := cround (v / (m : ℚ)) with hk
      have hky : 0 < k := by nlinarith
      refine ⟨k.toNat, ?_⟩
      have hcast : ((m.toNat * k.toNat : ℕ) : ℤ) = z := by
        push_cast [Int.toNat_of_nonneg hm.le, Int.toNat_of_nonneg hky.le]
        rw [hz]
        ring
      have h2 : (z.toNat : ℤ) = ((m.toNat * k.toNat : ℕ) : ℤ) := by
        rw [hcast, Int.toNat_of_nonneg hpos.le]
      exact_mod_cast h2

/-- C10: every channel of every pixel of the final reconstructed RGB buffer
of the PNG path is either a multiple of the rounding granularity
(2 when quality > 0.4, else 4) or equal to 255. -/
theorem c10_png_channels (rexp : ℚ → ℚ) (img : List RGB) (w h : ℕ) (q : ℚ) (pix : RGB)
    (hp : pix ∈ pngPipeline rexp img w h q) :
    ((if q > 0.4 then 2 else 4 : ℕ) ∣ pix.r ∨ pix.r = 255) ∧
    ((if q > 0.4 then 2 else 4 : ℕ) ∣ pix.g ∨ pix.g = 255) ∧
    ((if q > 0.4 then 2 else 4 : ℕ) ∣ pix.b ∨ pix.b = 255) := by
  unfold pngPipeline at hp
  dsimp only at hp
  rw [List.mem_map] at hp
  obtain ⟨c, -, rfl⟩ := hp
  have hm : (0:ℤ) < rgbMultiple q := by
    unfold rgbMultiple
    split <;> norm_num
  have hmn : (if q > 0.4 then 2 else 4 : ℕ) = (rgbMultiple q).toNat := by
    unfold rgbMultiple
    split <;> rfl
  rw [hmn]
  unfold YCbCr.toRGBRounded
  dsimp only
  exact ⟨rtm_mult_or_255 _ _ hm, rtm_mult_or_255 _ _ hm, rtm_mult_or_255 _ _ hm⟩

set_option maxRecDepth 100000 in
/-- Witness for C10: a 1×1 image at quality 1/2; the output pixel is
(6, 202, 34), all channels multiples of 2. -/
theorem c10_png_channels_witness :
    ((if (1/2 : ℚ) > 0.4 then 2 else 4 : ℕ) ∣ (RGB.mk 6 202 34).r ∨ (RGB.mk 6 202 34).r = 255) ∧
    ((if (1/2 : ℚ) > 0.4 then 2 else 4 : ℕ) ∣ (RGB.mk 6 202 34).g ∨ (RGB.mk 6 202 34).g = 255) ∧
    ((if (1/2 : ℚ) > 0.4 then 2 else 4 : ℕ) ∣ (RGB.mk 6 202 34).b ∨ (RGB.mk 6 202 34).b = 255) :=
  c10_png_channels (fun _ => 1) [⟨10,200,30⟩] 1 1 (1/2) ⟨6,202,34⟩
    (by with_unfolding_all decide)

-- ---------- C5 ----------

/-- The early-exit scan only ever collects packed colors of the buffer. -/
theorem scanColors_subset (l : List RGB) :
    ∀ s : Finset ℕ, scanColors l s ⊆ (l.map packRGB).toFinset ∪ s := by
  induction l with
  | nil =>
    intro s
    simp [scanColors]
  | cons p rest ih =>
    intro s
    unfold scanColors
    dsimp only
    split
    · intro a ha
      simp only [List.map_cons, List.toFinset_cons, Finset.mem_union, Finset.mem_insert] at *
      tauto
    · intro a ha
      have := ih (insert (packRGB p) s) ha
      simp only [List.map_cons, List.toFinset_cons, Finset.mem_union,
        Finset.mem_insert] at this ⊢
      tauto

/-- When the scan finishes without tripping the early exit (final size ≤ 256),
it has seen every pixel and its result is the full distinct-color set. -/
theorem scanColors_eq_of_card_le (l : List RGB) :
    ∀ s : Finset ℕ, (scanColors l s).card ≤ 256 →
      scanColors l s = (l.map packRGB).toFinset ∪ s := by
  induction l with
  | nil =>
    intro s _
    simp [scanColors]
  | cons p rest ih =>
    intro s hcard
    unfold scanColors at hcard ⊢
    dsimp only at hcard ⊢
    split at hcard
    · omega
    · rw [if_neg (by assumption)]
      rw [ih _ hcard]
      simp only [List.map_cons, List.toFinset_cons]
      rw [Finset.union_insert, Finset.insert_union]

/-- C5: the indexed branch is selected iff the buffer has between 1 and 256
distinct packed colors; in that case the palette has one RGBA entry per
distinct color with alpha 255, and the palette entry at each pixel's index
is that pixel's RGB value; otherwise the truecolor branch is selected. -/
theorem c5_palette_indexed (px : List RGB)
    (hb : ∀ p ∈ px, p.r ≤ 255 ∧ p.g ≤ 255 ∧ p.b ≤ 255) :
    (selectIndexed px ↔
      (1 ≤ ((px.map packRGB).toFinset).card ∧ ((px.map packRGB).toFinset).card ≤ 256)) ∧
    (selectIndexed px → (paletteRGBA px).length = ((px.map packRGB).toFinset).card) ∧
    (∀ e ∈ paletteRGBA px, e.2.2.2 = 255) ∧
    (selectIndexed px → ∀ p ∈ px,
      (paletteRGBA px).getD ((paletteColors px).indexOf (packRGB p)) (0, 0, 0, 0)
        = (p.r, p.g, p.b, 255)) := by
  have h3 : ∀ e ∈ paletteRGBA px, e.2.2.2 = 255 := by
    intro e he
    unfold paletteRGBA at he
    rw [List.mem_map] at he
    obtain ⟨c, -, rfl⟩ := he
    rfl
  rcases le_or_lt (uniqScan px).card 256 with hc | hc
  · have heq : uniqScan px = (px.map packRGB).toFinset := by
      have h := scanColors_eq_of_card_le px ∅ hc
      unfold uniqScan
      rw [h, Finset.union_empty]
    refine ⟨?_, ?_, h3, ?_⟩
    · unfold selectIndexed
      rw [heq]
      constructor
      · rintro ⟨hne, hle⟩
        exact ⟨Finset.card_pos.mpr hne, hle⟩
      · rintro ⟨h1, h2⟩
        exact ⟨Finset.card_pos.mp h1, h2⟩
    · intro _
      unfold paletteRGBA paletteColors
      rw [List.length_map, Finset.length_sort, heq]
    · intro _ p hp
      have hmem : packRGB p ∈ paletteColors px := by
        unfold paletteColors
        rw [Finset.mem_sort, heq]
        simp only [List.mem_toFinset, List.mem_map]
        exact ⟨p, hp, rfl⟩
      have hidx : (paletteColors px).indexOf (packRGB p) < (paletteColors px).length :=
        List.indexOf_lt_length.mpr hmem
      unfold paletteRGBA
      rw [List.getD_eq_getElem _ _ (by rw [List.length_map]; exact hidx)]
      rw [List.getElem_map]
      have hget := List.indexOf_get (a := packRGB p) (l := paletteColors px) hidx
      rw [List.get_eq_getElem] at hget
      rw [hget]
      obtain ⟨h1, h2, h3'⟩ := hb p hp
      unfold unpackRGBA packRGB
      simp only [Prod.mk.injEq]
      refine ⟨?_, ?_, ?_, trivial⟩ <;> omega
  · have hgt : 256 < ((px.map packRGB).toFinset).card := by
      have hsub := scanColors_subset px ∅
      have hle : (uniqScan px).card ≤ ((px.map packRGB).toFinset ∪ ∅).card :=
        Finset.card_le_card hsub
      rw [Finset.union_empty] at hle
      omega
    have hnsel : ¬ selectIndexed px := by
      rintro ⟨-, hle⟩
      omega
    exact ⟨iff_of_false hnsel (by rintro ⟨-, h2⟩; omega),
      fun hsel => absurd hsel hnsel, h3, fun hsel => absurd hsel hnsel⟩

/-- Witness for C5 on a two-color buffer. -/
theorem c5_palette_indexed_witness :
    (selectIndexed [⟨0,0,0⟩, ⟨255,0,0⟩] ↔
      (1 ≤ ((([⟨0,0,0⟩, ⟨255,0,0⟩] : List RGB).map packRGB).toFinset).card ∧
        ((([⟨0,0,0⟩, ⟨255,0,0⟩] : List RGB).map packRGB).toFinset).card ≤ 256)) ∧
    (selectIndexed [⟨0,0,0⟩, ⟨255,0,0⟩] →
      (paletteRGBA [⟨0,0,0⟩, ⟨255,0,0⟩]).length =
        ((([⟨0,0,0⟩, ⟨255,0,0⟩] : List RGB).map packRGB).toFinset).card) ∧
    (∀ e ∈ paletteRGBA [⟨0,0,0⟩, ⟨255,0,0⟩], e.2.2.2 = 255) ∧
    (selectIndexed [⟨0,0,0⟩, ⟨255,0,0⟩] → ∀ p ∈ ([⟨0,0,0⟩, ⟨255,0,0⟩] : List RGB),
      (paletteRGBA [⟨0,0,0⟩, ⟨255,0,0⟩]).getD
          ((paletteColors [⟨0,0,0⟩, ⟨255,0,0⟩]).indexOf (packRGB p)) (0, 0, 0, 0)
        = (p.r, p.g, p.b, 255)) :=
  c5_palette_indexed [⟨0,0,0⟩, ⟨255,0,0⟩] (by decide)

-- ---------- C6 ----------

/-- C6 counterexample: the output path `o.gif` has an unsupported (but
present) extension, yet `compressImage` still reaches the decode call
(`stbi_load`) before rejecting — the claim's "before the input image is
decoded" fails. -/
theorem c6_counterexample :
    (extOf "o.gif".data).map (List.map lowerChar) = some "gif".data ∧
    isJPEGExt "gif".data = false ∧ isPNGExt "gif".data = false ∧
    attemptsDecode (1/2) "o.gif".data = true := by
  with_unfolding_all decide

/-- C6 (amended): a missing extension is rejected before decoding with
failure reported; a present but unsupported extension also reports failure
and performs no encoding, but only after the input has been decoded. -/
theorem c6_ext_rejection (q : ℚ) (out : List Char) (dk ek : Bool)
    (hq0 : 0 ≤ q) (hq1 : q ≤ 1) :
    (extOf out = none → attemptsDecode q out = false ∧ compressResult q out dk ek = false) ∧
    (∀ e, extOf out = some e →
      isJPEGExt (e.map lowerChar) = false → isPNGExt (e.map lowerChar) = false →
      compressResult q out dk ek = false ∧ attemptsDecode q out = true) := by
  constructor
  · intro hnone
    constructor
    · unfold attemptsDecode
      rw [hnone]
      simp
    · unfold compressResult
      rw [if_neg (not_not_intro ⟨hq0, hq1⟩), hnone]
  · intro e he hj hp
    constructor
    · unfold compressResult
      rw [if_neg (not_not_intro ⟨hq0, hq1⟩), he]
      cases dk with
      | false => simp
      | true =>
        dsimp only
        rw [if_neg (by simp)]
        simp [hj, hp]
    · unfold attemptsDecode
      rw [he]
      simp [hq0, hq1]

/-- Witness for C6 at quality 1/2 with output path `o.gif`. -/
theorem c6_ext_rejection_witness :
    (extOf "o.gif".data = none →
      attemptsDecode (1/2) "o.gif".data = false ∧
      compressResult (1/2) "o.gif".data true true = false) ∧
    (∀ e, extOf "o.gif".data = some e →
      isJPEGExt (e.map lowerChar) = false → isPNGExt (e.map lowerChar) = false →
      compressResult (1/2) "o.gif".data true true = false ∧
      attemptsDecode (1/2) "o.gif".data = true) :=
  c6_ext_rejection (1/2) "o.gif".data true true (by norm_num) (by norm_num)
